import Mathlib

/-!
# Promotion store: `uploadCSV` and `findPromotionByID` (main.go)

A shallow embedding of the in-memory promotion store of `main.go`:

* the two package-level variables `promotionsCache` (a slice) and
  `promotionIndexMap` (a `map[string]int`) form the `Store`;
* `uploadCSV` clears the store and then appends one record per CSV row,
  one mutex-delimited critical section at a time;
* `findPromotionByID` reads the index map and then indexes the slice.

The Go standard library is outside the repository, so its three entry
points used by `uploadCSV` are taken as data: `strconv.ParseFloat` and
`time.Parse` are the fields of `Env`, and the `csv.Reader` is the list of
the results its successive `Read` calls deliver (the end of the list is
`io.EOF`).  Slice capacity and the text printed by `fmt.Println` are not
part of the model.
-/

namespace PromotionStore

/-! ## Data model -/

/-- The `Promotion` struct (main.go, lines 17-21); `P` stands for `float64`
and `T` for `time.Time`. -/
structure Promotion (P T : Type) where
  ID : String
  Price : P
  ExpirationDate : T
  deriving DecidableEq, Repr

/-- The library functions `uploadCSV` calls on the columns of a row, with the
zero values of the two field types (needed for the literal `Promotion{}`).
`parseFloat c` is `strconv.ParseFloat(c, 64)` and `parseTime c` is
`time.Parse("2006-01-02 15:04:05 -0700 MST", c)`; `E` is Go's `error`. -/
structure Env (E P T : Type) where
  parseFloat : String → Except E P
  parseTime : String → Except E T
  zeroPrice : P
  zeroTime : T

/-- The composite literal `Promotion{}`: every field at its zero value. -/
def Env.zeroPromotion {E P T : Type} (env : Env E P T) : Promotion P T :=
  { ID := "", Price := env.zeroPrice, ExpirationDate := env.zeroTime }

/-- A Go `map[string]int` as an association list; the first entry for a key is
the one a lookup sees. -/
abbrev IndexMap := List (String × Int)

/-- The comma-ok lookup `v, ok := m[k]`: `none` is `ok = false`. -/
def IndexMap.get : IndexMap → String → Option Int
  | [], _ => none
  | (k', v) :: rest, k => if k' = k then some v else IndexMap.get rest k

/-- The builtin `delete(m, k)`. -/
def IndexMap.delete (m : IndexMap) (k : String) : IndexMap :=
  m.filter (fun e => decide (e.1 ≠ k))

/-- The assignment `m[k] = v`. -/
def IndexMap.set (m : IndexMap) (k : String) (v : Int) : IndexMap :=
  (k, v) :: IndexMap.delete m k

/-- The keys a `for k := range m` loop visits. -/
def IndexMap.keys (m : IndexMap) : List String :=
  m.map Prod.fst

/-- The package-level state: `promotionsCache` (line 39) and
`promotionIndexMap` (line 42). -/
structure Store (P T : Type) where
  promotionsCache : List (Promotion P T)
  promotionIndexMap : IndexMap
  deriving DecidableEq, Repr

/-- The store at process start: a nil slice and an empty map. -/
def Store.initial {P T : Type} : Store P T :=
  { promotionsCache := [], promotionIndexMap := [] }

/-- The slice index expression `xs[i]` with a Go `int` index; `none` is the
run-time panic "index out of range". -/
def sliceIndex {α : Type} (xs : List α) (i : Int) : Option α :=
  if 0 ≤ i ∧ i < (xs.length : Int) then xs[i.toNat]? else none

/-! ## `uploadCSV` -/

/-- How a call of `uploadCSV` ends: `return nil`, `return err`, or a run-time
panic (an index expression out of range). -/
inductive Outcome (E : Type) where
  | nil : Outcome E
  | err : E → Outcome E
  | panic : Outcome E
  deriving DecidableEq, Repr

/-- A result of `r.Read()`: a record, or an error other than `io.EOF`. -/
abbrev ReadResult (E : Type) := Except E (List String)

/-- What `uploadCSV` leaves behind: how it ended, the store, the results the
reader had not delivered yet, and the store as it stood after each critical
section the call executed, in order. -/
structure UploadResult (E P T : Type) where
  outcome : Outcome E
  store : Store P T
  unread : List (ReadResult E)
  trace : List (Store P T)

/-- The first critical section (lines 61-66): a fresh empty slice, and every
key deleted from the map. -/
def clearStep {P T : Type} (s : Store P T) : Store P T :=
  { promotionsCache := [],
    promotionIndexMap :=
      (IndexMap.keys s.promotionIndexMap).foldl IndexMap.delete s.promotionIndexMap }

/-- The per-row critical section (lines 95-98): append, then index the new
last position. -/
def rowStep {P T : Type} (s : Store P T) (promotion : Promotion P T) : Store P T :=
  let cache := s.promotionsCache ++ [promotion]
  { promotionsCache := cache,
    promotionIndexMap :=
      IndexMap.set s.promotionIndexMap promotion.ID ((cache.length : Int) - 1) }

/-- The part of the loop body between `r.Read()` and the critical section
(lines 77-92): `record[1]` is parsed first, then `record[2]`, and `record[0]`
is read last. -/
def parseRow {E P T : Type} (env : Env E P T) (record : List String) :
    Except (Outcome E) (Promotion P T) :=
  match record[1]? with
  | none => .error .panic
  | some c1 =>
    match env.parseFloat c1 with
    | .error e => .error (.err e)
    | .ok price =>
      match record[2]? with
      | none => .error .panic
      | some c2 =>
        match env.parseTime c2 with
        | .error e => .error (.err e)
        | .ok expirationDate =>
          match record[0]? with
          | none => .error .panic
          | some c0 => .ok { ID := c0, Price := price, ExpirationDate := expirationDate }

/-- The `for` loop of `uploadCSV` (lines 68-99) over the results the reader
still has to deliver. -/
def uploadLoop {E P T : Type} (env : Env E P T) :
    List (ReadResult E) → Store P T → UploadResult E P T
  | [], s => { outcome := .nil, store := s, unread := [], trace := [] }
  | .error e :: rest, s => { outcome := .err e, store := s, unread := rest, trace := [] }
  | .ok record :: rest, s =>
    match parseRow env record with
    | .error o => { outcome := o, store := s, unread := rest, trace := [] }
    | .ok promotion =>
      let r := uploadLoop env rest (rowStep s promotion)
      { r with trace := rowStep s promotion :: r.trace }

/-- The function `uploadCSV` (lines 48-102).  `file` is what `file.Open()`
gives: an error, or the source the CSV reader reads from. -/
def uploadCSV {E P T : Type} (env : Env E P T) (file : Except E (List (ReadResult E)))
    (s : Store P T) : UploadResult E P T :=
  match file with
  | .error e => { outcome := .err e, store := s, unread := [], trace := [] }
  | .ok reads =>
    let r := uploadLoop env reads (clearStep s)
    { r with trace := clearStep s :: r.trace }

/-! ## `findPromotionByID` -/

/-- The function `findPromotionByID` (lines 121-131), as a state transformer on
the store.  The first component is `none` when the index expression
`promotionsCache[index]` panics. -/
def findPromotionByID {E P T : Type} (env : Env E P T) (promotionID : String)
    (s : Store P T) : Option (Promotion P T × Bool) × Store P T :=
  match IndexMap.get s.promotionIndexMap promotionID with
  | none => (some (env.zeroPromotion, false), s)
  | some index =>
    match sliceIndex s.promotionsCache index with
    | none => (none, s)
    | some promotion => (some (promotion, true), s)

/-! ## A small concrete environment, used to evaluate the model -/

/-- A timestamp in the layout `2006-01-02 15:04:05 -0700 MST` (written t1 in
the comments below). -/
def time1 : String := "2025-01-01 00:00:00 +0000 UTC"

/-- A second timestamp in the same layout (written t2 in the comments below). -/
def time2 : String := "2025-06-15 23:59:59 +0000 UTC"

/-- A table-driven stand-in for the two parsers, defined on the few columns
the concrete evaluations below use: the prices `1.00` and `2.00` (kept in
cents) and the timestamps `time1` and `time2` (kept in Unix seconds) parse,
every other string is rejected, as `x` (no number) and `zz` (no timestamp) are
by the library functions. -/
def demoEnv : Env String Nat Nat where
  parseFloat := fun c =>
    if c = "1.00" then .ok 100 else if c = "2.00" then .ok 200 else .error "bad price"
  parseTime := fun c =>
    if c = time1 then .ok 1735689600
    else if c = time2 then .ok 1750031999 else .error "bad time"
  zeroPrice := 0
  zeroTime := 0

/-! ## Vocabulary of the specification -/

/-- Column 1 of the row is there and parses as a price. -/
def priceParses {E P T : Type} (env : Env E P T) (row : List String) : Bool :=
  match row[1]? with
  | none => false
  | some c => match env.parseFloat c with
    | .ok _ => true
    | .error _ => false

/-- Column 2 of the row is there and parses as an expiration time. -/
def expirationParses {E P T : Type} (env : Env E P T) (row : List String) : Bool :=
  match row[2]? with
  | none => false
  | some c => match env.parseTime c with
    | .ok _ => true
    | .error _ => false

/-- A well-formed row: 3 columns, a parsable price and a parsable expiration. -/
def wellFormed {E P T : Type} (env : Env E P T) (row : List String) : Bool :=
  row.length == 3 && priceParses env row && expirationParses env row

/-- The record a 3-column row stands for: identifier from column 0, price from
column 1, expiration from column 2; `none` when a column does not parse. -/
def recordOf {E P T : Type} (env : Env E P T) : List String → Option (Promotion P T)
  | [c0, c1, c2] =>
    match env.parseFloat c1, env.parseTime c2 with
    | .ok price, .ok expirationDate =>
      some { ID := c0, Price := price, ExpirationDate := expirationDate }
    | _, _ => none
  | _ => none

/-- The parse error a 3-column row is rejected with, the price being looked at
before the expiration; `none` when both columns parse. -/
def rowError {E P T : Type} (env : Env E P T) : List String → Option E
  | [_, c1, c2] =>
    match env.parseFloat c1 with
    | .error e => some e
    | .ok _ =>
      match env.parseTime c2 with
      | .error e => some e
      | .ok _ => none
  | _ => none

/-- The index consistency of a store: (a) every entry of the index map points
inside the slice, at a record carrying the entry's key, and (b) the identifier
of every record of the slice is a key of the index map. -/
def Consistent {P T : Type} (s : Store P T) : Prop :=
  (∀ id i, IndexMap.get s.promotionIndexMap id = some i →
      ∃ p, sliceIndex s.promotionsCache i = some p ∧ p.ID = id) ∧
  (∀ p ∈ s.promotionsCache, ∃ i, IndexMap.get s.promotionIndexMap p.ID = some i)

/-- The stores a run of the program passes through: the initial store, the
store after a lookup, and the store after each critical section of a call of
`uploadCSV` (so also the store a call ends with, however it ends). -/
inductive Reachable {E P T : Type} (env : Env E P T) : Store P T → Prop
  | initial : Reachable env Store.initial
  | lookup (s : Store P T) (promotionID : String) :
      Reachable env s → Reachable env (findPromotionByID env promotionID s).2
  | upload (s s' : Store P T) (file : Except E (List (ReadResult E))) :
      Reachable env s → s' ∈ (uploadCSV env file s).trace → Reachable env s'
  | uploaded (s : Store P T) (file : Except E (List (ReadResult E))) :
      Reachable env s → Reachable env (uploadCSV env file s).store

/-- The stores after each of the row steps for the records `ps`, from `s`. -/
def rowTrace {P T : Type} (s : Store P T) : List (Promotion P T) → List (Store P T)
  | [] => []
  | p :: ps => rowStep s p :: rowTrace (rowStep s p) ps

/-! ## The index map -/

theorem IndexMap.get_delete_ne (m : IndexMap) (k k' : String) (h : k ≠ k') :
    IndexMap.get (IndexMap.delete m k) k' = IndexMap.get m k' := by
  induction m with
  | nil => rfl
  | cons e rest ih =>
    obtain ⟨a, v⟩ := e
    simp only [IndexMap.delete] at ih ⊢
    by_cases hak : a = k
    · subst hak
      simp only [List.filter_cons, ne_eq, not_true_eq_false, decide_False, Bool.false_eq_true,
        if_false, IndexMap.get, h]
      exact ih
    · simp only [List.filter_cons, ne_eq, hak, not_false_eq_true, decide_True, if_true,
        IndexMap.get]
      rw [ih]

theorem IndexMap.get_set (m : IndexMap) (k k' : String) (v : Int) :
    IndexMap.get (IndexMap.set m k v) k' = if k = k' then some v else IndexMap.get m k' := by
  by_cases h : k = k'
  · simp [IndexMap.set, IndexMap.get, h]
  · simp [IndexMap.set, IndexMap.get, h, IndexMap.get_delete_ne m k k' h]

theorem IndexMap.foldl_delete_eq_nil (ks : List String) (m : IndexMap)
    (h : ∀ e ∈ m, e.1 ∈ ks) : ks.foldl IndexMap.delete m = [] := by
  induction ks generalizing m with
  | nil =>
    cases m with
    | nil => rfl
    | cons e rest => exact absurd (h e (List.mem_cons_self _ _)) (List.not_mem_nil _)
  | cons k ks ih =>
    rw [List.foldl_cons]
    apply ih
    intro e he
    unfold IndexMap.delete at he
    rw [List.mem_filter] at he
    have hk : e.1 ≠ k := by simpa using he.2
    rcases List.mem_cons.mp (h e he.1) with h1 | h1
    · exact absurd h1 hk
    · exact h1

/-- The clear step leaves the empty store, whatever was there before. -/
theorem clearStep_eq {P T : Type} (s : Store P T) :
    clearStep s = { promotionsCache := [], promotionIndexMap := [] } := by
  unfold clearStep
  congr 1
  apply IndexMap.foldl_delete_eq_nil
  intro e he
  exact List.mem_map_of_mem Prod.fst he

/-! ## Rows and records -/

theorem parseRow_of_recordOf {E P T : Type} (env : Env E P T) (row : List String)
    (p : Promotion P T) (h : recordOf env row = some p) : parseRow env row = .ok p := by
  match row, h with
  | [c0, c1, c2], h =>
    simp only [recordOf] at h
    simp only [parseRow, List.getElem?_cons_succ, List.getElem?_cons_zero]
    cases h1 : env.parseFloat c1 with
    | error e => simp [h1] at h
    | ok price =>
      cases h2 : env.parseTime c2 with
      | error e => simp [h1, h2] at h
      | ok t =>
        simp only [h1, h2, Option.some.injEq] at h
        simp [h]

theorem recordOf_ID {E P T : Type} (env : Env E P T) (row : List String)
    (p : Promotion P T) (h : recordOf env row = some p) : row[0]? = some p.ID := by
  match row, h with
  | [c0, c1, c2], h =>
    simp only [recordOf] at h
    cases h1 : env.parseFloat c1 with
    | error e => simp [h1] at h
    | ok price =>
      cases h2 : env.parseTime c2 with
      | error e => simp [h1, h2] at h
      | ok t =>
        simp only [h1, h2, Option.some.injEq] at h
        simp [← h]

theorem wellFormed_iff_recordOf {E P T : Type} (env : Env E P T) (row : List String) :
    wellFormed env row = true ↔ ∃ p, recordOf env row = some p := by
  constructor
  · intro h
    simp only [wellFormed, Bool.and_eq_true, beq_iff_eq] at h
    obtain ⟨⟨hlen, hp⟩, ht⟩ := h
    obtain ⟨c0, c1, c2, rfl⟩ := List.length_eq_three.mp hlen
    simp only [priceParses, List.getElem?_cons_succ, List.getElem?_cons_zero] at hp
    simp only [expirationParses, List.getElem?_cons_succ, List.getElem?_cons_zero] at ht
    cases h1 : env.parseFloat c1 with
    | error e => simp [h1] at hp
    | ok price =>
      cases h2 : env.parseTime c2 with
      | error e => simp [h2] at ht
      | ok t => exact ⟨⟨c0, price, t⟩, by simp [recordOf, h1, h2]⟩
  · rintro ⟨p, h⟩
    match row, h with
    | [c0, c1, c2], h =>
      simp only [recordOf] at h
      cases h1 : env.parseFloat c1 with
      | error e => simp [h1] at h
      | ok price =>
        cases h2 : env.parseTime c2 with
        | error e => simp [h1, h2] at h
        | ok t => simp [wellFormed, priceParses, expirationParses, h1, h2]

theorem rowError_of_not_wellFormed {E P T : Type} (env : Env E P T) (row : List String)
    (hlen : row.length = 3) (h : wellFormed env row = false) :
    ∃ e, rowError env row = some e ∧ parseRow env row = .error (.err e) := by
  obtain ⟨c0, c1, c2, rfl⟩ := List.length_eq_three.mp hlen
  cases h1 : env.parseFloat c1 with
  | error e => exact ⟨e, by simp [rowError, h1], by simp [parseRow, h1]⟩
  | ok price =>
    cases h2 : env.parseTime c2 with
    | error e => exact ⟨e, by simp [rowError, h1, h2], by simp [parseRow, h1, h2]⟩
    | ok t => simp [wellFormed, priceParses, expirationParses, h1, h2] at h

/-- The records of a list of well-formed rows. -/
theorem exists_records {E P T : Type} (env : Env E P T) (R : List (List String))
    (hwf : ∀ row ∈ R, wellFormed env row = true) :
    ∃ ps : List (Promotion P T), R.map (recordOf env) = ps.map some := by
  induction R with
  | nil => exact ⟨[], rfl⟩
  | cons row R ih =>
    obtain ⟨ps, hps⟩ := ih (fun r hr => hwf r (List.mem_cons_of_mem _ hr))
    obtain ⟨p, hp⟩ := (wellFormed_iff_recordOf env row).mp (hwf row (List.mem_cons_self _ _))
    exact ⟨p :: ps, by simp [hp, hps]⟩

/-! ## The loop -/

/-- The loop on a run of rows that parse to `ps`, followed by anything: the
rows are stored one after the other and the loop goes on with the rest. -/
theorem uploadLoop_parsed_rows {E P T : Type} (env : Env E P T) (R : List (List String))
    (ps : List (Promotion P T)) (h : R.map (recordOf env) = ps.map some)
    (rest : List (ReadResult E)) (s : Store P T) :
    uploadLoop env (R.map Except.ok ++ rest) s =
      { outcome := (uploadLoop env rest (ps.foldl rowStep s)).outcome,
        store := (uploadLoop env rest (ps.foldl rowStep s)).store,
        unread := (uploadLoop env rest (ps.foldl rowStep s)).unread,
        trace := rowTrace s ps ++ (uploadLoop env rest (ps.foldl rowStep s)).trace } := by
  induction R generalizing ps s with
  | nil =>
    cases ps with
    | nil => simp [rowTrace]
    | cons p ps => simp at h
  | cons row R ih =>
    cases ps with
    | nil => simp at h
    | cons p ps =>
      simp only [List.map_cons, List.cons.injEq] at h
      have hrow := parseRow_of_recordOf env row p h.1
      have hih := ih ps h.2 (rowStep s p)
      simp only [List.map_cons, List.cons_append, uploadLoop, hrow, List.foldl_cons, rowTrace]
      simp only [List.append_eq] at hih ⊢
      rw [hih]

/-! ## The store built by the row steps -/

theorem foldl_rowStep_cache {P T : Type} (s : Store P T) (ps : List (Promotion P T)) :
    (ps.foldl rowStep s).promotionsCache = s.promotionsCache ++ ps := by
  induction ps generalizing s with
  | nil => simp
  | cons p ps ih => simp [ih, rowStep]

/-- An identifier that none of the stored records carries keeps the entry it
had before. -/
theorem foldl_rowStep_get_absent {P T : Type} (s : Store P T) (ps : List (Promotion P T))
    (id : String) (h : ∀ p ∈ ps, p.ID ≠ id) :
    IndexMap.get (ps.foldl rowStep s).promotionIndexMap id
      = IndexMap.get s.promotionIndexMap id := by
  induction ps generalizing s with
  | nil => rfl
  | cons p ps ih =>
    rw [List.foldl_cons, ih _ (fun q hq => h q (List.mem_cons_of_mem _ hq))]
    simp only [rowStep, IndexMap.get_set]
    rw [if_neg (h p (List.mem_cons_self _ _))]

/-- The identifier of the record at position `i` is mapped to `i` (counted from
the start of the slice) when no later record carries it. -/
theorem foldl_rowStep_get_last {P T : Type} (s : Store P T) (ps : List (Promotion P T))
    (i : Nat) (p : Promotion P T) (hi : ps[i]? = some p)
    (hlast : ∀ j q, i < j → ps[j]? = some q → q.ID ≠ p.ID) :
    IndexMap.get (ps.foldl rowStep s).promotionIndexMap p.ID
      = some (((s.promotionsCache.length + i : Nat) : Int)) := by
  induction ps generalizing s i with
  | nil => simp at hi
  | cons q ps ih =>
    rw [List.foldl_cons]
    cases i with
    | zero =>
      simp only [List.getElem?_cons_zero, Option.some.injEq] at hi
      subst hi
      rw [foldl_rowStep_get_absent]
      · simp only [rowStep, IndexMap.get_set, if_true, List.length_append, List.length_singleton]
        simp
      · intro r hr
        obtain ⟨n, hn⟩ := List.getElem?_of_mem hr
        exact hlast (n + 1) r (Nat.succ_pos n) (by simpa using hn)
    | succ i =>
      simp only [List.getElem?_cons_succ] at hi
      rw [ih (rowStep s q) i hi]
      · simp only [rowStep, List.length_append, List.length_singleton]
        congr 2
        omega
      · intro j r hj hr
        exact hlast (j + 1) r (by omega) (by simpa using hr)

theorem sliceIndex_ofNat {α : Type} (xs : List α) (i : Nat) (x : α) (h : xs[i]? = some x) :
    sliceIndex xs ((i : Nat) : Int) = some x := by
  have hlt : i < xs.length := by
    by_contra hge
    rw [List.getElem?_eq_none (by omega)] at h
    exact Option.noConfusion h
  unfold sliceIndex
  rw [if_pos ⟨by omega, by exact_mod_cast hlt⟩]
  simpa using h

/-- The store after `j` row steps, read off the trace. -/
theorem rowTrace_getElem? {P T : Type} (s : Store P T) (ps : List (Promotion P T))
    (j : Nat) (hj : j ≤ ps.length) :
    (s :: rowTrace s ps)[j]? = some ((ps.take j).foldl rowStep s) := by
  induction ps generalizing s j with
  | nil =>
    have : j = 0 := by simpa using hj
    subst this
    rfl
  | cons p ps ih =>
    cases j with
    | zero => rfl
    | succ j =>
      simp only [List.getElem?_cons_succ, rowTrace, List.take_succ_cons, List.foldl_cons]
      exact ih (rowStep s p) j (by simpa using hj)

theorem rowTrace_length {P T : Type} (s : Store P T) (ps : List (Promotion P T)) :
    (rowTrace s ps).length = ps.length := by
  induction ps generalizing s with
  | nil => rfl
  | cons p ps ih => simp [rowTrace, ih]

/-- The whole result of `uploadCSV` on rows that all parse, to the records `ps`. -/
theorem uploadCSV_records {E P T : Type} (env : Env E P T) (R : List (List String))
    (ps : List (Promotion P T)) (h : R.map (recordOf env) = ps.map some) (s : Store P T) :
    uploadCSV env (.ok (R.map Except.ok)) s =
      { outcome := .nil,
        store := ps.foldl rowStep { promotionsCache := [], promotionIndexMap := [] },
        unread := [],
        trace := { promotionsCache := [], promotionIndexMap := [] } ::
          rowTrace { promotionsCache := [], promotionIndexMap := [] } ps } := by
  have hl := uploadLoop_parsed_rows env R ps h [] (clearStep s)
  rw [List.append_nil, clearStep_eq] at hl
  simp only [uploadCSV, clearStep_eq, hl, uploadLoop, List.append_nil]

/-- The whole result of `uploadCSV` on rows that parse to the records `ps`
followed by a 3-column row that does not parse. -/
theorem uploadCSV_offender {E P T : Type} (env : Env E P T) (R : List (List String))
    (ps : List (Promotion P T)) (h : R.map (recordOf env) = ps.map some)
    (bad : List String) (hlen : bad.length = 3) (hbad : wellFormed env bad = false)
    (rest : List (ReadResult E)) (s : Store P T) :
    ∃ e, rowError env bad = some e ∧
      uploadCSV env (.ok (R.map Except.ok ++ Except.ok bad :: rest)) s =
        { outcome := .err e,
          store := ps.foldl rowStep { promotionsCache := [], promotionIndexMap := [] },
          unread := rest,
          trace := { promotionsCache := [], promotionIndexMap := [] } ::
            rowTrace { promotionsCache := [], promotionIndexMap := [] } ps } := by
  obtain ⟨e, he, hp⟩ := rowError_of_not_wellFormed env bad hlen hbad
  refine ⟨e, he, ?_⟩
  have hl := uploadLoop_parsed_rows env R ps h (Except.ok bad :: rest) (clearStep s)
  rw [clearStep_eq] at hl
  simp only [uploadCSV, clearStep_eq, hl, uploadLoop, hp, List.append_nil]

/-! ## Rows against records, position by position -/

theorem records_of_row {E P T : Type} (env : Env E P T) (R : List (List String))
    (ps : List (Promotion P T)) (h : R.map (recordOf env) = ps.map some)
    (i : Nat) (row : List String) (hrow : R[i]? = some row) :
    ∃ p, ps[i]? = some p ∧ recordOf env row = some p := by
  have hi := congrArg (fun l => l[i]?) h
  simp only [List.getElem?_map, hrow, Option.map_some'] at hi
  cases hp : ps[i]? with
  | none => simp [hp] at hi
  | some p =>
    simp only [hp, Option.map_some', Option.some.injEq] at hi
    exact ⟨p, rfl, hi⟩

theorem row_of_records {E P T : Type} (env : Env E P T) (R : List (List String))
    (ps : List (Promotion P T)) (h : R.map (recordOf env) = ps.map some)
    (i : Nat) (p : Promotion P T) (hp : ps[i]? = some p) :
    ∃ row, R[i]? = some row ∧ recordOf env row = some p := by
  have hi := congrArg (fun l => l[i]?) h
  simp only [List.getElem?_map, hp, Option.map_some'] at hi
  cases hrow : R[i]? with
  | none => simp [hrow] at hi
  | some row =>
    simp only [hrow, Option.map_some', Option.some.injEq] at hi
    exact ⟨row, rfl, hi⟩

theorem records_length {E P T : Type} (env : Env E P T) (R : List (List String))
    (ps : List (Promotion P T)) (h : R.map (recordOf env) = ps.map some) :
    ps.length = R.length := by
  have := congrArg List.length h
  simpa using this.symm

/-- The index map built from the empty store sends the identifier of a row to
the row's position when no later row has that identifier. -/
theorem get_of_last_row {E P T : Type} (env : Env E P T) (R : List (List String))
    (ps : List (Promotion P T)) (h : R.map (recordOf env) = ps.map some)
    (i : Nat) (row : List String) (id : String) (hrow : R[i]? = some row)
    (hid : row[0]? = some id)
    (hlast : ∀ j row', i < j → R[j]? = some row' → row'[0]? ≠ some id) :
    IndexMap.get (ps.foldl rowStep
      { promotionsCache := [], promotionIndexMap := [] }).promotionIndexMap id
      = some ((i : Nat) : Int) := by
  obtain ⟨p, hp, hrec⟩ := records_of_row env R ps h i row hrow
  have hpid : p.ID = id := by
    have := recordOf_ID env row p hrec
    rw [hid] at this
    exact (Option.some.inj this).symm
  have key := foldl_rowStep_get_last
    ({ promotionsCache := [], promotionIndexMap := [] } : Store P T) ps i p hp (by
      intro j q hj hq hqid
      obtain ⟨row', hrow', hrec'⟩ := row_of_records env R ps h j q hq
      apply hlast j row' hj hrow'
      rw [recordOf_ID env row' q hrec', hqid, hpid])
  rw [hpid] at key
  simpa using key

/-- The index map built from the empty store has no entry for an identifier
that no row has. -/
theorem get_of_absent_row {E P T : Type} (env : Env E P T) (R : List (List String))
    (ps : List (Promotion P T)) (h : R.map (recordOf env) = ps.map some)
    (id : String) (habs : ∀ (i : Nat) (row : List String), R[i]? = some row → row[0]? ≠ some id) :
    IndexMap.get (ps.foldl rowStep
      { promotionsCache := [], promotionIndexMap := [] }).promotionIndexMap id = none := by
  rw [foldl_rowStep_get_absent]
  · rfl
  · intro p hp hpid
    obtain ⟨n, hn⟩ := List.getElem?_of_mem hp
    obtain ⟨row, hrow, hrec⟩ := row_of_records env R ps h n p hn
    apply habs n row hrow
    rw [recordOf_ID env row p hrec, hpid]

/-- The rows before position `k`, when they are all well formed, have records. -/
theorem exists_prefix_records {E P T : Type} (env : Env E P T) (R : List (List String))
    (k : Nat) (hpre : ∀ i row, i < k → R[i]? = some row → wellFormed env row = true) :
    ∃ ps : List (Promotion P T), (R.take k).map (recordOf env) = ps.map some := by
  apply exists_records
  intro row hrow
  obtain ⟨n, hn⟩ := List.getElem?_of_mem hrow
  rw [List.getElem?_take] at hn
  by_cases hnk : n < k
  · rw [if_pos hnk] at hn
    exact hpre n row hnk hn
  · rw [if_neg hnk] at hn
    exact Option.noConfusion hn

theorem split_at_row {α : Type} (R : List α) (k : Nat) (x : α) (h : R[k]? = some x) :
    R = R.take k ++ x :: R.drop (k + 1) := by
  obtain ⟨hk, hx⟩ := List.getElem?_eq_some.mp h
  rw [← hx, ← List.drop_eq_getElem_cons hk, List.take_append_drop]

/-- The result of `uploadCSV` when the row at position `k` is the first one
that does not parse. -/
theorem uploadCSV_first_offender {E P T : Type} (env : Env E P T) (R : List (List String))
    (k : Nat) (bad : List String) (hk : R[k]? = some bad)
    (hpre : ∀ i row, i < k → R[i]? = some row → wellFormed env row = true)
    (hlen : bad.length = 3) (hbad : wellFormed env bad = false) (s : Store P T) :
    ∃ (ps : List (Promotion P T)) (e : E),
      (R.take k).map (recordOf env) = ps.map some ∧ rowError env bad = some e ∧
      uploadCSV env (.ok (R.map Except.ok)) s =
        { outcome := .err e,
          store := ps.foldl rowStep { promotionsCache := [], promotionIndexMap := [] },
          unread := (R.drop (k + 1)).map Except.ok,
          trace := { promotionsCache := [], promotionIndexMap := [] } ::
            rowTrace { promotionsCache := [], promotionIndexMap := [] } ps } := by
  obtain ⟨ps, hps⟩ := exists_prefix_records env R k hpre
  obtain ⟨e, he, hup⟩ := uploadCSV_offender env (R.take k) ps hps bad hlen hbad
    ((R.drop (k + 1)).map Except.ok) s
  refine ⟨ps, e, hps, he, ?_⟩
  rw [← hup]
  congr 2
  conv_lhs => rw [split_at_row R k bad hk]
  simp

/-! ## Lookups on a known store -/

theorem findPromotionByID_store {E P T : Type} (env : Env E P T) (s : Store P T)
    (id : String) : (findPromotionByID env id s).2 = s := by
  unfold findPromotionByID
  cases h1 : IndexMap.get s.promotionIndexMap id with
  | none => rfl
  | some index =>
    cases h2 : sliceIndex s.promotionsCache index with
    | none => simp only [h2]
    | some promotion => simp only [h2]

theorem find_of_get_some {E P T : Type} (env : Env E P T) (st : Store P T) (id : String)
    (i : Nat) (p : Promotion P T) (hget : IndexMap.get st.promotionIndexMap id = some (i : Int))
    (hp : st.promotionsCache[i]? = some p) :
    (findPromotionByID env id st).1 = some (p, true) := by
  simp only [findPromotionByID, hget, sliceIndex_ofNat st.promotionsCache i p hp]

theorem find_of_get_none {E P T : Type} (env : Env E P T) (st : Store P T) (id : String)
    (hget : IndexMap.get st.promotionIndexMap id = none) :
    (findPromotionByID env id st).1 = some (env.zeroPromotion, false) := by
  simp only [findPromotionByID, hget]

theorem foldl_rowStep_empty_cache {P T : Type} (ps : List (Promotion P T)) :
    (ps.foldl rowStep { promotionsCache := [], promotionIndexMap := [] }).promotionsCache
      = ps := by
  rw [foldl_rowStep_cache]
  rfl

/-- The first position of a list at which a property fails. -/
theorem exists_first_failure {α : Type} (Q : α → Bool) (R : List α)
    (h : ∃ x ∈ R, Q x = false) :
    ∃ (k : Nat) (bad : α), R[k]? = some bad ∧ Q bad = false ∧
      ∀ (i : Nat) (x : α), i < k → R[i]? = some x → Q x = true := by
  induction R with
  | nil =>
    obtain ⟨x, hx, _⟩ := h
    exact absurd hx (List.not_mem_nil _)
  | cons r R ih =>
    cases hr : Q r with
    | false =>
      exact ⟨0, r, by simp, hr, fun i x hi _ => absurd hi (Nat.not_lt_zero i)⟩
    | true =>
      obtain ⟨x, hx, hqx⟩ := h
      rcases List.mem_cons.mp hx with hxr | hxR
      · rw [hxr, hr] at hqx
        exact Bool.noConfusion hqx
      · obtain ⟨k, bad, hk, hbad, hpre⟩ := ih ⟨x, hxR, hqx⟩
        refine ⟨k + 1, bad, by simpa using hk, hbad, ?_⟩
        intro i y hi hy
        cases i with
        | zero =>
          simp only [List.getElem?_cons_zero, Option.some.injEq] at hy
          rw [← hy]
          exact hr
        | succ i => exact hpre i y (by omega) (by simpa using hy)

theorem wellFormed_of_parses {E P T : Type} (env : Env E P T) (row : List String)
    (hlen : row.length = 3) :
    wellFormed env row = (priceParses env row && expirationParses env row) := by
  simp [wellFormed, hlen]

/-! ## Index consistency is kept by every critical section -/

theorem consistent_empty {P T : Type} :
    Consistent ({ promotionsCache := [], promotionIndexMap := [] } : Store P T) := by
  constructor
  · intro id i h
    simp [IndexMap.get] at h
  · intro p hp
    exact absurd hp (List.not_mem_nil _)

theorem sliceIndex_append_left {α : Type} (xs ys : List α) (i : Int) (x : α)
    (h : sliceIndex xs i = some x) : sliceIndex (xs ++ ys) i = some x := by
  unfold sliceIndex at h ⊢
  by_cases hr : 0 ≤ i ∧ i < (xs.length : Int)
  · rw [if_pos hr] at h
    have hlt : i.toNat < xs.length := by omega
    rw [if_pos ⟨hr.1, by rw [List.length_append]; push_cast; omega⟩,
      List.getElem?_append_left hlt]
    exact h
  · rw [if_neg hr] at h
    exact Option.noConfusion h

theorem sliceIndex_last {α : Type} (xs : List α) (x : α) :
    sliceIndex (xs ++ [x]) ((((xs ++ [x]).length : Nat) : Int) - 1) = some x := by
  have h : ((((xs ++ [x]).length : Nat) : Int) - 1) = ((xs.length : Nat) : Int) := by
    rw [List.length_append, List.length_singleton]
    push_cast
    omega
  rw [h]
  apply sliceIndex_ofNat
  simp

theorem consistent_rowStep {P T : Type} (s : Store P T) (p : Promotion P T)
    (h : Consistent s) : Consistent (rowStep s p) := by
  obtain ⟨ha, hb⟩ := h
  constructor
  · intro id i hget
    simp only [rowStep, IndexMap.get_set] at hget
    by_cases hid : p.ID = id
    · rw [if_pos hid] at hget
      refine ⟨p, ?_, hid⟩
      rw [← Option.some.inj hget]
      exact sliceIndex_last s.promotionsCache p
    · rw [if_neg hid] at hget
      obtain ⟨q, hq, hqid⟩ := ha id i hget
      exact ⟨q, sliceIndex_append_left _ _ _ _ hq, hqid⟩
  · intro q hq
    simp only [rowStep, List.mem_append, List.mem_singleton] at hq
    simp only [rowStep, IndexMap.get_set]
    by_cases hid : p.ID = q.ID
    · rw [if_pos hid]
      exact ⟨_, rfl⟩
    · rw [if_neg hid]
      rcases hq with hq | hq
      · exact hb q hq
      · exact absurd (by rw [hq]) hid

theorem consistent_foldl_rowStep {P T : Type} (s : Store P T) (ps : List (Promotion P T))
    (h : Consistent s) : Consistent (ps.foldl rowStep s) := by
  induction ps generalizing s with
  | nil => exact h
  | cons p ps ih => exact ih (rowStep s p) (consistent_rowStep s p h)

theorem consistent_uploadLoop {E P T : Type} (env : Env E P T) (reads : List (ReadResult E))
    (s : Store P T) (h : Consistent s) :
    Consistent (uploadLoop env reads s).store ∧
      ∀ s' ∈ (uploadLoop env reads s).trace, Consistent s' := by
  induction reads generalizing s with
  | nil => exact ⟨h, fun s' hs' => absurd hs' (List.not_mem_nil _)⟩
  | cons r rest ih =>
    cases r with
    | error e => exact ⟨h, fun s' hs' => absurd hs' (List.not_mem_nil _)⟩
    | ok record =>
      cases hrow : parseRow env record with
      | error o =>
        simp only [uploadLoop, hrow]
        exact ⟨h, fun s' hs' => absurd hs' (List.not_mem_nil _)⟩
      | ok promotion =>
        simp only [uploadLoop, hrow]
        have hstep := consistent_rowStep s promotion h
        obtain ⟨h1, h2⟩ := ih (rowStep s promotion) hstep
        refine ⟨h1, ?_⟩
        intro s' hs'
        rcases List.mem_cons.mp hs' with hs' | hs'
        · rw [hs']
          exact hstep
        · exact h2 s' hs'

/-- Every store a call of `uploadCSV` passes through or ends with is consistent
when the store it started from was. -/
theorem consistent_uploadCSV {E P T : Type} (env : Env E P T)
    (file : Except E (List (ReadResult E))) (s : Store P T) (h : Consistent s) :
    Consistent (uploadCSV env file s).store ∧
      ∀ s' ∈ (uploadCSV env file s).trace, Consistent s' := by
  cases file with
  | error e => exact ⟨h, fun s' hs' => absurd hs' (List.not_mem_nil _)⟩
  | ok reads =>
    have hc : Consistent (clearStep s) := by
      rw [clearStep_eq]
      exact consistent_empty
    obtain ⟨h1, h2⟩ := consistent_uploadLoop env reads (clearStep s) hc
    refine ⟨h1, ?_⟩
    intro s' hs'
    simp only [uploadCSV] at hs'
    rcases List.mem_cons.mp hs' with hs' | hs'
    · rw [hs']
      exact hc
    · exact h2 s' hs'

/-- On a consistent store a lookup never panics: it is not-found, or it finds a
record that carries the identifier asked for. -/
theorem find_of_consistent {E P T : Type} (env : Env E P T) (st : Store P T) (id : String)
    (h : Consistent st) :
    (IndexMap.get st.promotionIndexMap id = none ∧
      (findPromotionByID env id st).1 = some (env.zeroPromotion, false)) ∨
    (∃ p, p.ID = id ∧ p ∈ st.promotionsCache ∧
      (findPromotionByID env id st).1 = some (p, true)) := by
  cases hget : IndexMap.get st.promotionIndexMap id with
  | none => exact Or.inl ⟨rfl, find_of_get_none env st id hget⟩
  | some i =>
    obtain ⟨p, hp, hpid⟩ := h.1 id i hget
    refine Or.inr ⟨p, hpid, ?_, by simp only [findPromotionByID, hget, hp]⟩
    unfold sliceIndex at hp
    by_cases hr : 0 ≤ i ∧ i < (st.promotionsCache.length : Int)
    · rw [if_pos hr] at hp
      exact List.mem_iff_getElem?.mpr ⟨_, hp⟩
    · rw [if_neg hr] at hp
      exact Option.noConfusion hp

/-! ## The store after any upload of 3-column rows -/

theorem take_all_of_no_row {α : Type} (R : List α) (k : Nat)
    (h : R[k]? = none) : R.take k = R := by
  have : R.length ≤ k := List.getElem?_eq_none_iff.mp h
  exact List.take_of_length_le this

/-- With `k` the position of the first row that does not parse (the length of
`R` if there is none), `uploadCSV` leaves the store built from the empty one by
the row steps for the first `k` rows. -/
theorem uploadCSV_store_first_rows {E P T : Type} (env : Env E P T) (R : List (List String))
    (k : Nat) (h3 : ∀ row ∈ R, row.length = 3)
    (hpre : ∀ (i : Nat) (row : List String), i < k → R[i]? = some row →
      wellFormed env row = true)
    (hoff : ∀ row : List String, R[k]? = some row → wellFormed env row = false)
    (s : Store P T) :
    ∃ ps : List (Promotion P T), (R.take k).map (recordOf env) = ps.map some ∧
      (uploadCSV env (.ok (R.map Except.ok)) s).store
        = ps.foldl rowStep { promotionsCache := [], promotionIndexMap := [] } := by
  cases hrow : R[k]? with
  | some bad =>
    obtain ⟨ps, e, hps, _, hup⟩ := uploadCSV_first_offender env R k bad hrow hpre
      (h3 bad (List.mem_iff_getElem?.mpr ⟨k, hrow⟩)) (hoff bad hrow) s
    exact ⟨ps, hps, by rw [hup]⟩
  | none =>
    obtain ⟨ps, hps⟩ := exists_prefix_records env R k hpre
    refine ⟨ps, hps, ?_⟩
    rw [take_all_of_no_row R k hrow] at hps
    rw [uploadCSV_records env R ps hps s]

theorem getElem?_take_some {α : Type} (R : List α) (k i : Nat) (x : α) :
    (R.take k)[i]? = some x ↔ i < k ∧ R[i]? = some x := by
  rw [List.getElem?_take]
  by_cases hik : i < k
  · simp [hik]
  · simp [hik]

/-! ## Successful uploads -/

/-- C1 (index consistency, last write wins): from any prior store, `uploadCSV` on
well-formed rows returns nil; afterwards the lookup of an identifier returns,
with found = true, the record parsed from the last row that has the identifier
in column 0, and it returns found = false for an identifier no row has. -/
theorem index_consistency_last_write_wins {E P T : Type} (env : Env E P T) (s : Store P T)
    (R : List (List String)) (hwf : ∀ row ∈ R, wellFormed env row = true) :
    (uploadCSV env (.ok (R.map Except.ok)) s).outcome = Outcome.nil ∧
    (∀ (i : Nat) (row : List String) (id : String), R[i]? = some row → row[0]? = some id →
      (∀ (j : Nat) (row' : List String), i < j → R[j]? = some row' → row'[0]? ≠ some id) →
      ∃ p, recordOf env row = some p ∧
        (findPromotionByID env id (uploadCSV env (.ok (R.map Except.ok)) s).store).1
          = some (p, true)) ∧
    (∀ id : String, (∀ row ∈ R, row[0]? ≠ some id) →
      (findPromotionByID env id (uploadCSV env (.ok (R.map Except.ok)) s).store).1
        = some (env.zeroPromotion, false)) := by
  obtain ⟨ps, hps⟩ := exists_records env R hwf
  rw [uploadCSV_records env R ps hps s]
  refine ⟨rfl, ?_, ?_⟩
  · intro i row id hrow hid hlast
    obtain ⟨p, hp, hrec⟩ := records_of_row env R ps hps i row hrow
    refine ⟨p, hrec, ?_⟩
    apply find_of_get_some env _ id i p
    · exact get_of_last_row env R ps hps i row id hrow hid hlast
    · rw [foldl_rowStep_empty_cache]
      exact hp
  · intro id habs
    apply find_of_get_none
    apply get_of_absent_row env R ps hps id
    intro i row hrow
    exact habs row (List.mem_iff_getElem?.mpr ⟨i, hrow⟩)

/-- C1 at the rows A/1.00/t1, A/2.00/t2: the lookup of A gives the second
record. -/
theorem index_consistency_last_write_wins_witness :
    (∀ row ∈ [["A", "1.00", time1], ["A", "2.00", time2]], wellFormed demoEnv row = true) ∧
    (findPromotionByID demoEnv "A" (uploadCSV demoEnv
      (.ok ([["A", "1.00", time1], ["A", "2.00", time2]].map Except.ok))
      Store.initial).store).1 = some (⟨"A", 200, 1750031999⟩, true) := by
  refine ⟨by decide, ?_⟩
  obtain ⟨p, hp, hfind⟩ := (index_consistency_last_write_wins demoEnv Store.initial
    [["A", "1.00", time1], ["A", "2.00", time2]] (by decide)).2.1 1 ["A", "2.00", time2] "A"
    rfl rfl (by
      intro j row' hj hrow'
      rw [List.getElem?_eq_none (by simp; omega)] at hrow'
      exact Option.noConfusion hrow')
  have hp' : p = ⟨"A", 200, 1750031999⟩ := by
    have h2 : recordOf demoEnv ["A", "2.00", time2] = some ⟨"A", 200, 1750031999⟩ := by decide
    rw [h2] at hp
    exact (Option.some.inj hp).symm
  rw [hfind, hp']

/-- C6 (idempotent reload): from any prior store, uploading well-formed rows
twice in a row leaves the same store as uploading them once, so every lookup
returns the same (record, found) pair. -/
theorem idempotent_reload {E P T : Type} (env : Env E P T) (s : Store P T)
    (R : List (List String)) (hwf : ∀ row ∈ R, wellFormed env row = true) :
    (uploadCSV env (.ok (R.map Except.ok))
        (uploadCSV env (.ok (R.map Except.ok)) s).store).store
      = (uploadCSV env (.ok (R.map Except.ok)) s).store ∧
    ∀ id : String,
      (findPromotionByID env id (uploadCSV env (.ok (R.map Except.ok))
        (uploadCSV env (.ok (R.map Except.ok)) s).store).store).1
      = (findPromotionByID env id (uploadCSV env (.ok (R.map Except.ok)) s).store).1 := by
  obtain ⟨ps, hps⟩ := exists_records env R hwf
  have h1 := uploadCSV_records env R ps hps s
  have h2 := uploadCSV_records env R ps hps (uploadCSV env (.ok (R.map Except.ok)) s).store
  have hst : (uploadCSV env (.ok (R.map Except.ok))
        (uploadCSV env (.ok (R.map Except.ok)) s).store).store
      = (uploadCSV env (.ok (R.map Except.ok)) s).store := by
    rw [h2, h1]
  exact ⟨hst, fun id => by rw [hst]⟩

/-- C6 at the rows A/1.00/t1, B/2.00/t2 over a store that held a record C. -/
theorem idempotent_reload_witness :
    (∀ row ∈ [["A", "1.00", time1], ["B", "2.00", time2]], wellFormed demoEnv row = true) ∧
    (uploadCSV demoEnv (.ok ([["A", "1.00", time1], ["B", "2.00", time2]].map Except.ok))
        (uploadCSV demoEnv (.ok ([["A", "1.00", time1], ["B", "2.00", time2]].map Except.ok))
          ⟨[⟨"C", 100, 1735689600⟩], [("C", 0)]⟩).store).store
      = (uploadCSV demoEnv (.ok ([["A", "1.00", time1], ["B", "2.00", time2]].map Except.ok))
          ⟨[⟨"C", 100, 1735689600⟩], [("C", 0)]⟩).store :=
  ⟨by decide, (idempotent_reload demoEnv ⟨[⟨"C", 100, 1735689600⟩], [("C", 0)]⟩
    [["A", "1.00", time1], ["B", "2.00", time2]] (by decide)).1⟩

/-- C8 (lookup is read-only): `findPromotionByID` leaves `promotionsCache` and
`promotionIndexMap` as they were, for every store and every identifier, and a
second lookup of the same identifier returns what the first returned. -/
theorem lookup_read_only {E P T : Type} (env : Env E P T) (s : Store P T) (id : String) :
    (findPromotionByID env id s).2 = s ∧
    (findPromotionByID env id s).2.promotionsCache = s.promotionsCache ∧
    (findPromotionByID env id s).2.promotionIndexMap = s.promotionIndexMap ∧
    (findPromotionByID env id (findPromotionByID env id s).2).1
      = (findPromotionByID env id s).1 := by
  have h : (findPromotionByID env id s).2 = s := findPromotionByID_store env s id
  exact ⟨h, by rw [h], by rw [h], by rw [h]⟩

/-! ## Uploads that may fail -/

/-- C10 (exact store contents after any upload): for 3-column rows `R` and `k`
the position of the first row whose price or expiration does not parse (the
length of `R` if there is none), `uploadCSV` leaves in `promotionsCache`
exactly the records of rows `0 .. k-1` in input order, and `promotionIndexMap`
sends each identifier of those rows to the position of its last occurrence
among them and has no other key; nothing of the prior store is left. -/
theorem exact_store_contents {E P T : Type} (env : Env E P T) (s : Store P T)
    (R : List (List String)) (k : Nat) (hk : k ≤ R.length)
    (h3 : ∀ row ∈ R, row.length = 3)
    (hpre : ∀ (i : Nat) (row : List String), i < k → R[i]? = some row →
      priceParses env row = true ∧ expirationParses env row = true)
    (hoff : ∀ row : List String, R[k]? = some row →
      ¬ (priceParses env row = true ∧ expirationParses env row = true)) :
    (uploadCSV env (.ok (R.map Except.ok)) s).store.promotionsCache.map some
      = (R.take k).map (recordOf env) ∧
    (uploadCSV env (.ok (R.map Except.ok)) s).store.promotionsCache.length = k ∧
    (∀ (i : Nat) (row : List String) (id : String), i < k → R[i]? = some row →
      row[0]? = some id →
      (∀ (j : Nat) (row' : List String), i < j → j < k → R[j]? = some row' →
        row'[0]? ≠ some id) →
      IndexMap.get (uploadCSV env (.ok (R.map Except.ok)) s).store.promotionIndexMap id
        = some (i : Int)) ∧
    (∀ id : String,
      (∀ (i : Nat) (row : List String), i < k → R[i]? = some row → row[0]? ≠ some id) →
      IndexMap.get (uploadCSV env (.ok (R.map Except.ok)) s).store.promotionIndexMap id
        = none) := by
  have hpre' : ∀ (i : Nat) (row : List String), i < k → R[i]? = some row →
      wellFormed env row = true := by
    intro i row hi hrow
    rw [wellFormed_of_parses env row (h3 row (List.mem_iff_getElem?.mpr ⟨i, hrow⟩))]
    simp [hpre i row hi hrow]
  have hoff' : ∀ row : List String, R[k]? = some row → wellFormed env row = false := by
    intro row hrow
    rw [wellFormed_of_parses env row (h3 row (List.mem_iff_getElem?.mpr ⟨k, hrow⟩))]
    have := hoff row hrow
    simpa using this
  obtain ⟨ps, hps, hst⟩ := uploadCSV_store_first_rows env R k h3 hpre' hoff' s
  rw [hst, foldl_rowStep_empty_cache]
  refine ⟨hps.symm, ?_, ?_, ?_⟩
  · rw [records_length env (R.take k) ps hps, List.length_take]
    omega
  · intro i row id hi hrow hid hlast
    apply get_of_last_row env (R.take k) ps hps i row id
    · exact (getElem?_take_some R k i row).mpr ⟨hi, hrow⟩
    · exact hid
    · intro j row' hij hrow'
      obtain ⟨hjk, hrj⟩ := (getElem?_take_some R k j row').mp hrow'
      exact hlast j row' hij hjk hrj
  · intro id habs
    apply get_of_absent_row env (R.take k) ps hps id
    intro i row hrow
    obtain ⟨hik, hri⟩ := (getElem?_take_some R k i row).mp hrow
    exact habs i row hik hri

/-- C10 at the rows A/1.00/t1, A/2.00/t2, B/x/t1 (the third is the first that
does not parse, so k = 2) over a store that held a record C. -/
theorem exact_store_contents_witness :
    (uploadCSV demoEnv
      (.ok ([["A", "1.00", time1], ["A", "2.00", time2], ["B", "x", time1]].map Except.ok))
      ⟨[⟨"C", 100, 1735689600⟩], [("C", 0)]⟩).store.promotionsCache.length = 2 :=
  (exact_store_contents demoEnv ⟨[⟨"C", 100, 1735689600⟩], [("C", 0)]⟩
    [["A", "1.00", time1], ["A", "2.00", time2], ["B", "x", time1]] 2 (by decide) (by decide)
    (by
      intro i row hi hrow
      match i, hi, hrow with
      | 0, _, hrow =>
        simp only [List.getElem?_cons_zero, Option.some.injEq] at hrow
        subst hrow
        decide
      | 1, _, hrow =>
        simp only [List.getElem?_cons_succ, List.getElem?_cons_zero, Option.some.injEq] at hrow
        subst hrow
        decide)
    (by
      intro row hrow
      simp only [List.getElem?_cons_succ, List.getElem?_cons_zero, Option.some.injEq] at hrow
      subst hrow
      decide)).2.1

/-- C5 (ingestion fails iff some row is bad, at the first offender): for
3-column rows delivered without a read error, `uploadCSV` returns nil exactly
when column 1 and column 2 of every row parse; otherwise it returns the parse
error of the first offending row, the price error if the price is bad and the
expiration error if only the expiration is, the rows after that one stay
unread, and the rows stored are exactly those before it. -/
theorem ingestion_fails_at_first_offender {E P T : Type} (env : Env E P T) (s : Store P T)
    (R : List (List String)) (h3 : ∀ row ∈ R, row.length = 3) :
    ((uploadCSV env (.ok (R.map Except.ok)) s).outcome = Outcome.nil ↔
      ∀ row ∈ R, priceParses env row = true ∧ expirationParses env row = true) ∧
    (∀ (k : Nat) (bad : List String), R[k]? = some bad →
      (∀ (i : Nat) (row : List String), i < k → R[i]? = some row →
        priceParses env row = true ∧ expirationParses env row = true) →
      ¬ (priceParses env bad = true ∧ expirationParses env bad = true) →
      ∃ e, rowError env bad = some e ∧
        (uploadCSV env (.ok (R.map Except.ok)) s).outcome = Outcome.err e ∧
        (uploadCSV env (.ok (R.map Except.ok)) s).unread = (R.drop (k + 1)).map Except.ok ∧
        (uploadCSV env (.ok (R.map Except.ok)) s).store.promotionsCache.map some
          = (R.take k).map (recordOf env) ∧
        (uploadCSV env (.ok (R.map Except.ok)) s).trace.length = k + 1) := by
  have hwf : ∀ row ∈ R, wellFormed env row
      = (priceParses env row && expirationParses env row) :=
    fun row hrow => wellFormed_of_parses env row (h3 row hrow)
  have hoffender : ∀ (k : Nat) (bad : List String), R[k]? = some bad →
      (∀ (i : Nat) (row : List String), i < k → R[i]? = some row →
        wellFormed env row = true) →
      wellFormed env bad = false →
      ∃ e, rowError env bad = some e ∧
        (uploadCSV env (.ok (R.map Except.ok)) s).outcome = Outcome.err e ∧
        (uploadCSV env (.ok (R.map Except.ok)) s).unread = (R.drop (k + 1)).map Except.ok ∧
        (uploadCSV env (.ok (R.map Except.ok)) s).store.promotionsCache.map some
          = (R.take k).map (recordOf env) ∧
        (uploadCSV env (.ok (R.map Except.ok)) s).trace.length = k + 1 := by
    intro k bad hk hpre hbad
    have hmem : bad ∈ R := List.mem_iff_getElem?.mpr ⟨k, hk⟩
    obtain ⟨ps, e, hps, he, hup⟩ :=
      uploadCSV_first_offender env R k bad hk hpre (h3 bad hmem) hbad s
    refine ⟨e, he, ?_⟩
    rw [hup]
    refine ⟨rfl, rfl, ?_, ?_⟩
    · rw [foldl_rowStep_empty_cache]
      exact hps.symm
    · have hlt : k < R.length := (List.getElem?_eq_some.mp hk).1
      simp only [List.length_cons, rowTrace_length]
      rw [records_length env (R.take k) ps hps, List.length_take]
      omega
  constructor
  · constructor
    · intro hnil row hrow
      by_contra hparse
      have hrowbad : wellFormed env row = false := by
        rw [hwf row hrow]
        simpa using hparse
      obtain ⟨k, bad, hk, hbad, hpre⟩ :=
        exists_first_failure (wellFormed env) R ⟨row, hrow, hrowbad⟩
      obtain ⟨e, _, hout, _⟩ := hoffender k bad hk hpre hbad
      rw [hout] at hnil
      exact Outcome.noConfusion hnil
    · intro hall
      have hall' : ∀ row ∈ R, wellFormed env row = true := by
        intro row hrow
        rw [hwf row hrow]
        simp [hall row hrow]
      obtain ⟨ps, hps⟩ := exists_records env R hall'
      rw [uploadCSV_records env R ps hps s]
  · intro k bad hk hpre hbad
    apply hoffender k bad hk
    · intro i row hi hrow
      rw [hwf row (List.mem_iff_getElem?.mpr ⟨i, hrow⟩)]
      simp [hpre i row hi hrow]
    · rw [hwf bad (List.mem_iff_getElem?.mpr ⟨k, hk⟩)]
      simpa using hbad

/-- C5 at the rows A/1.00/t1, B/x/zz, C/2.00/t2: the second row is bad in both
columns and the call does not return nil. -/
theorem ingestion_fails_at_first_offender_witness :
    (∀ row ∈ [["A", "1.00", time1], ["B", "x", "zz"], ["C", "2.00", time2]], row.length = 3) ∧
    ¬ ((uploadCSV demoEnv
      (.ok ([["A", "1.00", time1], ["B", "x", "zz"], ["C", "2.00", time2]].map Except.ok))
      Store.initial).outcome = Outcome.nil) :=
  ⟨by decide, fun hnil =>
    absurd ((ingestion_fails_at_first_offender demoEnv Store.initial
      [["A", "1.00", time1], ["B", "x", "zz"], ["C", "2.00", time2]] (by decide)).1.mp hnil
        ["B", "x", "zz"] (by decide)) (by decide)⟩

/-- C2, refuted as stated: over a store holding A, the upload of the rows
B/1.00/t1, C/x/t1 fails on the price of the second row, and afterwards the store
is not the prior one: A is no longer found and B, from the row before the
offending one, is. -/
theorem parse_failure_changes_store :
    priceParses demoEnv ["C", "x", time1] = false ∧
    (uploadCSV demoEnv (.ok [.ok ["B", "1.00", time1], .ok ["C", "x", time1]])
      ⟨[⟨"A", 100, 1735689600⟩], [("A", 0)]⟩).outcome = Outcome.err "bad price" ∧
    (uploadCSV demoEnv (.ok [.ok ["B", "1.00", time1], .ok ["C", "x", time1]])
      ⟨[⟨"A", 100, 1735689600⟩], [("A", 0)]⟩).store ≠ ⟨[⟨"A", 100, 1735689600⟩], [("A", 0)]⟩ ∧
    (findPromotionByID demoEnv "A" ⟨[⟨"A", 100, 1735689600⟩], [("A", 0)]⟩).1
      = some (⟨"A", 100, 1735689600⟩, true) ∧
    (findPromotionByID demoEnv "A"
      (uploadCSV demoEnv (.ok [.ok ["B", "1.00", time1], .ok ["C", "x", time1]])
        ⟨[⟨"A", 100, 1735689600⟩], [("A", 0)]⟩).store).1 = some (⟨"", 0, 0⟩, false) ∧
    (findPromotionByID demoEnv "B"
      (uploadCSV demoEnv (.ok [.ok ["B", "1.00", time1], .ok ["C", "x", time1]])
        ⟨[⟨"A", 100, 1735689600⟩], [("A", 0)]⟩).store).1 = some (⟨"B", 100, 1735689600⟩, true) := by
  decide

/-- C2, amended: when the first row that does not parse is the 3-column row at
position `k`, `uploadCSV` returns that row's parse error and leaves the store
that a successful `uploadCSV` of the `k` rows before it leaves, whatever the
prior store was; every lookup after the failed call returns what it returns
after loading those `k` rows alone.  So `promotionsCache` holds exactly the
records of those `k` rows, the rows before the offending one are visible (the
lookup of an identifier returns, with found = true, the record of the last of
those rows that has it), and the records of the prior store are not (the lookup
of an identifier none of those rows has returns found = false). -/
theorem parse_failure_keeps_preceding_rows {E P T : Type} (env : Env E P T) (s : Store P T)
    (R : List (List String)) (k : Nat) (bad : List String) (hk : R[k]? = some bad)
    (hpre : ∀ (i : Nat) (row : List String), i < k → R[i]? = some row →
      wellFormed env row = true)
    (hlen : bad.length = 3)
    (hbad : ¬ (priceParses env bad = true ∧ expirationParses env bad = true)) :
    (∃ e, rowError env bad = some e ∧
      (uploadCSV env (.ok (R.map Except.ok)) s).outcome = Outcome.err e) ∧
    (∀ s' : Store P T,
      (uploadCSV env (.ok ((R.take k).map Except.ok)) s').outcome = Outcome.nil ∧
      (uploadCSV env (.ok (R.map Except.ok)) s).store
        = (uploadCSV env (.ok ((R.take k).map Except.ok)) s').store ∧
      ∀ id : String,
        (findPromotionByID env id (uploadCSV env (.ok (R.map Except.ok)) s).store).1
          = (findPromotionByID env id
              (uploadCSV env (.ok ((R.take k).map Except.ok)) s').store).1) ∧
    (uploadCSV env (.ok (R.map Except.ok)) s).store.promotionsCache.map some
      = (R.take k).map (recordOf env) ∧
    (∀ (i : Nat) (row : List String) (id : String), i < k → R[i]? = some row →
      row[0]? = some id →
      (∀ (j : Nat) (row' : List String), i < j → j < k → R[j]? = some row' →
        row'[0]? ≠ some id) →
      ∃ p, recordOf env row = some p ∧
        (findPromotionByID env id (uploadCSV env (.ok (R.map Except.ok)) s).store).1
          = some (p, true)) ∧
    (∀ id : String,
      (∀ (i : Nat) (row : List String), i < k → R[i]? = some row → row[0]? ≠ some id) →
      (findPromotionByID env id (uploadCSV env (.ok (R.map Except.ok)) s).store).1
        = some (env.zeroPromotion, false)) := by
  have hbad' : wellFormed env bad = false := by
    rw [wellFormed_of_parses env bad hlen]
    simpa using hbad
  obtain ⟨ps, e, hps, he, hup⟩ := uploadCSV_first_offender env R k bad hk hpre hlen hbad' s
  refine ⟨⟨e, he, by rw [hup]⟩, ?_, ?_, ?_, ?_⟩
  · intro s'
    have hfirst := uploadCSV_records env (R.take k) ps hps s'
    have hst : (uploadCSV env (.ok (R.map Except.ok)) s).store
        = (uploadCSV env (.ok ((R.take k).map Except.ok)) s').store := by
      rw [hup, hfirst]
    exact ⟨by rw [hfirst], hst, fun id => by rw [hst]⟩
  · rw [hup]
    simp only [foldl_rowStep_empty_cache]
    exact hps.symm
  · intro i row id hi hrow hid hlast
    have hrow' := (getElem?_take_some R k i row).mpr ⟨hi, hrow⟩
    obtain ⟨p, hp, hrec⟩ := records_of_row env (R.take k) ps hps i row hrow'
    refine ⟨p, hrec, ?_⟩
    rw [hup]
    apply find_of_get_some env _ id i p
    · apply get_of_last_row env (R.take k) ps hps i row id hrow' hid
      intro j row2 hij hrow2
      obtain ⟨hjk, hrj⟩ := (getElem?_take_some R k j row2).mp hrow2
      exact hlast j row2 hij hjk hrj
    · rw [foldl_rowStep_empty_cache]
      exact hp
  · intro id habs
    rw [hup]
    apply find_of_get_none
    apply get_of_absent_row env (R.take k) ps hps id
    intro i row hrow
    obtain ⟨hik, hri⟩ := (getElem?_take_some R k i row).mp hrow
    exact habs i row hik hri

/-- C2 amended, at the rows B/1.00/t1, C/x/t1 over a store holding A: the
store left is the one the upload of B/1.00/t1 alone leaves, and in it A, from
the prior store, is not found. -/
theorem parse_failure_keeps_preceding_rows_witness :
    (uploadCSV demoEnv (.ok ([["B", "1.00", time1], ["C", "x", time1]].map Except.ok))
      ⟨[⟨"A", 100, 1735689600⟩], [("A", 0)]⟩).store
    = (uploadCSV demoEnv
        (.ok (([["B", "1.00", time1], ["C", "x", time1]].take 1).map Except.ok))
        Store.initial).store ∧
    (findPromotionByID demoEnv "A"
      (uploadCSV demoEnv (.ok ([["B", "1.00", time1], ["C", "x", time1]].map Except.ok))
        ⟨[⟨"A", 100, 1735689600⟩], [("A", 0)]⟩).store).1
      = some (demoEnv.zeroPromotion, false) := by
  have h := parse_failure_keeps_preceding_rows demoEnv ⟨[⟨"A", 100, 1735689600⟩], [("A", 0)]⟩
    [["B", "1.00", time1], ["C", "x", time1]] 1 ["C", "x", time1] rfl
    (by
      intro i row hi hrow
      have hi0 : i = 0 := by omega
      subst hi0
      simp only [List.getElem?_cons_zero, Option.some.injEq] at hrow
      subst hrow
      decide)
    (by decide) (by decide)
  refine ⟨(h.2.1 Store.initial).2.1, h.2.2.2.2 "A" ?_⟩
  intro i row hi hrow
  have hi0 : i = 0 := by omega
  subst hi0
  simp only [List.getElem?_cons_zero, Option.some.injEq] at hrow
  subst hrow
  decide

/-- C9, refuted as stated: from the empty store, the upload of the rows
A/1.00/t1, B/2.00/zz fails on the expiration of the second row, and the store
it leaves is not empty: it holds the record of A, indexed and found. -/
theorem failed_upload_store_not_empty :
    expirationParses demoEnv ["B", "2.00", "zz"] = false ∧
    (uploadCSV demoEnv (.ok [.ok ["A", "1.00", time1], .ok ["B", "2.00", "zz"]])
      Store.initial).outcome = Outcome.err "bad time" ∧
    (uploadCSV demoEnv (.ok [.ok ["A", "1.00", time1], .ok ["B", "2.00", "zz"]])
      Store.initial).store.promotionsCache.length = 1 ∧
    (uploadCSV demoEnv (.ok [.ok ["A", "1.00", time1], .ok ["B", "2.00", "zz"]])
      Store.initial).store.promotionIndexMap = [("A", 0)] ∧
    (findPromotionByID demoEnv "A"
      (uploadCSV demoEnv (.ok [.ok ["A", "1.00", time1], .ok ["B", "2.00", "zz"]])
        Store.initial).store).1 = some (⟨"A", 100, 1735689600⟩, true) := by
  decide

/-- C9, amended: when the first row that does not parse is the 3-column row at
position `k`, after `uploadCSV` returns the error the store holds the `k` rows
before it and nothing else: `promotionsCache` has length `k`, a lookup finds
every identifier of those rows and no other identifier, and for `k = 0` the
store is empty. -/
theorem failed_upload_store {E P T : Type} (env : Env E P T) (s : Store P T)
    (R : List (List String)) (k : Nat) (bad : List String) (hk : R[k]? = some bad)
    (hpre : ∀ (i : Nat) (row : List String), i < k → R[i]? = some row →
      wellFormed env row = true)
    (hlen : bad.length = 3)
    (hbad : ¬ (priceParses env bad = true ∧ expirationParses env bad = true)) :
    (∃ e, (uploadCSV env (.ok (R.map Except.ok)) s).outcome = Outcome.err e) ∧
    (uploadCSV env (.ok (R.map Except.ok)) s).store.promotionsCache.length = k ∧
    (∀ id : String,
      (∀ (i : Nat) (row : List String), i < k → R[i]? = some row → row[0]? ≠ some id) →
      IndexMap.get (uploadCSV env (.ok (R.map Except.ok)) s).store.promotionIndexMap id
        = none ∧
      (findPromotionByID env id (uploadCSV env (.ok (R.map Except.ok)) s).store).1
        = some (env.zeroPromotion, false)) ∧
    (∀ (i : Nat) (row : List String) (id : String), i < k → R[i]? = some row →
      row[0]? = some id →
      ∃ p, p.ID = id ∧
        (findPromotionByID env id (uploadCSV env (.ok (R.map Except.ok)) s).store).1
          = some (p, true)) ∧
    (k = 0 → (uploadCSV env (.ok (R.map Except.ok)) s).store
      = { promotionsCache := [], promotionIndexMap := [] }) := by
  have hbad' : wellFormed env bad = false := by
    rw [wellFormed_of_parses env bad hlen]
    simpa using hbad
  obtain ⟨ps, e, hps, he, hup⟩ := uploadCSV_first_offender env R k bad hk hpre hlen hbad' s
  have hlt : k < R.length := (List.getElem?_eq_some.mp hk).1
  have hlen_ps : ps.length = k := by
    rw [records_length env (R.take k) ps hps, List.length_take]
    omega
  rw [hup]
  refine ⟨⟨e, rfl⟩, ?_, ?_, ?_, ?_⟩
  · simp only [foldl_rowStep_empty_cache]
    exact hlen_ps
  · intro id habs
    have hnone := get_of_absent_row env (R.take k) ps hps id (by
      intro i row hrow
      obtain ⟨hik, hri⟩ := (getElem?_take_some R k i row).mp hrow
      exact habs i row hik hri)
    exact ⟨hnone, find_of_get_none env _ id hnone⟩
  · intro i row id hi hrow hid
    obtain ⟨p, hp, hrec⟩ := records_of_row env (R.take k) ps hps i row
      ((getElem?_take_some R k i row).mpr ⟨hi, hrow⟩)
    have hpid : p.ID = id := by
      have := recordOf_ID env row p hrec
      rw [hid] at this
      exact (Option.some.inj this).symm
    have hcons : Consistent (ps.foldl rowStep
        ({ promotionsCache := [], promotionIndexMap := [] } : Store P T)) :=
      consistent_foldl_rowStep _ ps consistent_empty
    have hmem : p ∈ (ps.foldl rowStep
        ({ promotionsCache := [], promotionIndexMap := [] } : Store P T)).promotionsCache := by
      rw [foldl_rowStep_empty_cache]
      exact List.mem_iff_getElem?.mpr ⟨i, hp⟩
    obtain ⟨n, hn⟩ := hcons.2 p hmem
    rw [hpid] at hn
    rcases find_of_consistent env _ id hcons with ⟨hnone, _⟩ | ⟨q, hq, _, hfind⟩
    · rw [hn] at hnone
      exact Option.noConfusion hnone
    · exact ⟨q, hq, hfind⟩
  · intro hk0
    subst hk0
    cases ps with
    | nil => rfl
    | cons p ps => simp at hlen_ps

/-- C9 amended, at the rows A/1.00/t1, B/2.00/zz over a store holding C: one
record is left. -/
theorem failed_upload_store_witness :
    (uploadCSV demoEnv (.ok ([["A", "1.00", time1], ["B", "2.00", "zz"]].map Except.ok))
      ⟨[⟨"C", 100, 1735689600⟩], [("C", 0)]⟩).store.promotionsCache.length = 1 :=
  (failed_upload_store demoEnv ⟨[⟨"C", 100, 1735689600⟩], [("C", 0)]⟩
    [["A", "1.00", time1], ["B", "2.00", "zz"]] 1 ["B", "2.00", "zz"] rfl
    (by
      intro i row hi hrow
      have hi0 : i = 0 := by omega
      subst hi0
      simp only [List.getElem?_cons_zero, Option.some.injEq] at hrow
      subst hrow
      decide)
    (by decide) (by decide)).2.1

/-! ## Between the critical sections -/

/-- C3, refuted as stated: over a store holding A at price 1.00, during the
upload of the single row A/2.00/t2 there is a point between two critical
sections (right after the clear step) at which the lookup of A returns neither
what it returns on the store before the upload nor what it returns on the store
after it. -/
theorem replacement_not_atomic :
    ∃ st ∈ (uploadCSV demoEnv (.ok [.ok ["A", "2.00", time2]])
        ⟨[⟨"A", 100, 1735689600⟩], [("A", 0)]⟩).trace,
      (findPromotionByID demoEnv "A" st).1
        ≠ (findPromotionByID demoEnv "A" ⟨[⟨"A", 100, 1735689600⟩], [("A", 0)]⟩).1 ∧
      (findPromotionByID demoEnv "A" st).1
        ≠ (findPromotionByID demoEnv "A"
            (uploadCSV demoEnv (.ok [.ok ["A", "2.00", time2]])
              ⟨[⟨"A", 100, 1735689600⟩], [("A", 0)]⟩).store).1 := by
  decide

/-- C3, amended: an upload of well-formed rows `R` runs `R.length + 1` critical
sections, and after the clear step and the first `j` row steps the store is the
complete store of an upload of the first `j` rows of `R` alone (from any prior
store), so every lookup at that point returns what it returns after loading
those `j` rows; after the last step this is the store after the upload. -/
theorem lookup_between_steps_sees_loaded_rows {E P T : Type} (env : Env E P T) (s : Store P T)
    (R : List (List String)) (hwf : ∀ row ∈ R, wellFormed env row = true) :
    (uploadCSV env (.ok (R.map Except.ok)) s).trace.length = R.length + 1 ∧
    (∀ j : Nat, j ≤ R.length →
      ∃ st, (uploadCSV env (.ok (R.map Except.ok)) s).trace[j]? = some st ∧
        ∀ s' : Store P T,
          st = (uploadCSV env (.ok ((R.take j).map Except.ok)) s').store ∧
          ∀ id : String, (findPromotionByID env id st).1
            = (findPromotionByID env id
                (uploadCSV env (.ok ((R.take j).map Except.ok)) s').store).1) ∧
    (uploadCSV env (.ok (R.map Except.ok)) s).trace[R.length]?
      = some (uploadCSV env (.ok (R.map Except.ok)) s).store := by
  obtain ⟨ps, hps⟩ := exists_records env R hwf
  have hlen := records_length env R ps hps
  rw [uploadCSV_records env R ps hps s]
  refine ⟨?_, ?_, ?_⟩
  · simp only [List.length_cons, rowTrace_length, hlen]
  · intro j hj
    refine ⟨(ps.take j).foldl rowStep { promotionsCache := [], promotionIndexMap := [] },
      rowTrace_getElem? _ ps j (by omega), ?_⟩
    intro s'
    have htake : (R.take j).map (recordOf env) = (ps.take j).map some := by
      rw [List.map_take, List.map_take, hps]
    have hst := uploadCSV_records env (R.take j) (ps.take j) htake s'
    exact ⟨by rw [hst], fun id => by rw [hst]⟩
  · have h := rowTrace_getElem?
      ({ promotionsCache := [], promotionIndexMap := [] } : Store P T) ps ps.length
      (Nat.le_refl _)
    rw [List.take_length, hlen] at h
    exact h

/-- C3 amended, at the rows A/1.00/t1, B/2.00/t2 over a store holding C: three
critical sections. -/
theorem lookup_between_steps_sees_loaded_rows_witness :
    (∀ row ∈ [["A", "1.00", time1], ["B", "2.00", time2]], wellFormed demoEnv row = true) ∧
    (uploadCSV demoEnv (.ok ([["A", "1.00", time1], ["B", "2.00", time2]].map Except.ok))
      ⟨[⟨"C", 100, 1735689600⟩], [("C", 0)]⟩).trace.length = 2 + 1 :=
  ⟨by decide, (lookup_between_steps_sees_loaded_rows demoEnv ⟨[⟨"C", 100, 1735689600⟩], [("C", 0)]⟩
    [["A", "1.00", time1], ["B", "2.00", time2]] (by decide)).1⟩

/-- Every reachable store is consistent. -/
theorem consistent_of_reachable {E P T : Type} (env : Env E P T) (st : Store P T)
    (h : Reachable env st) : Consistent st := by
  induction h with
  | initial => exact consistent_empty
  | lookup s id _ ih =>
    rw [findPromotionByID_store]
    exact ih
  | upload s s' file _ hmem ih => exact (consistent_uploadCSV env file s ih).2 s' hmem
  | uploaded s file _ ih => exact (consistent_uploadCSV env file s ih).1

/-- C4 (index/collection invariant): in every store reachable from the initial
empty store by calls of `uploadCSV` (however they end, the stores between their
critical sections included) and of `findPromotionByID`, (a) every entry
id -> i of `promotionIndexMap` has 0 <= i < len(promotionsCache) and
promotionsCache[i].ID = id, so a lookup never indexes out of range, and (b) the
ID of every element of `promotionsCache` is a key of `promotionIndexMap`; and
the clear step leaves no key in the map. -/
theorem index_collection_invariant {E P T : Type} (env : Env E P T) (st : Store P T)
    (h : Reachable env st) :
    (∀ (id : String) (i : Int), IndexMap.get st.promotionIndexMap id = some i →
      0 ≤ i ∧ i < (st.promotionsCache.length : Int) ∧
      ∃ p, st.promotionsCache[i.toNat]? = some p ∧ p.ID = id) ∧
    (∀ p ∈ st.promotionsCache, ∃ i, IndexMap.get st.promotionIndexMap p.ID = some i) ∧
    (∀ id : String, (findPromotionByID env id st).1 ≠ none) ∧
    (clearStep st).promotionIndexMap = [] := by
  have hc := consistent_of_reachable env st h
  refine ⟨?_, hc.2, ?_, by rw [clearStep_eq]⟩
  · intro id i hget
    obtain ⟨p, hp, hpid⟩ := hc.1 id i hget
    unfold sliceIndex at hp
    by_cases hr : 0 ≤ i ∧ i < (st.promotionsCache.length : Int)
    · rw [if_pos hr] at hp
      exact ⟨hr.1, hr.2, p, hp, hpid⟩
    · rw [if_neg hr] at hp
      exact Option.noConfusion hp
  · intro id hnone
    rcases find_of_consistent env st id hc with ⟨_, hf⟩ | ⟨p, _, _, hf⟩
    · rw [hf] at hnone
      exact Option.noConfusion hnone
    · rw [hf] at hnone
      exact Option.noConfusion hnone

/-- C4 at the store left by a failed upload of A/1.00/t1, A/2.00/t2, B/x/t1
that followed a lookup on the initial store: the lookup of A does not panic. -/
theorem index_collection_invariant_witness :
    (findPromotionByID demoEnv "A" (uploadCSV demoEnv
      (.ok [.ok ["A", "1.00", time1], .ok ["A", "2.00", time2], .ok ["B", "x", time1]])
      (findPromotionByID demoEnv "Z" Store.initial).2).store).1 ≠ none :=
  (index_collection_invariant demoEnv _
    (Reachable.uploaded _ _ (Reachable.lookup _ "Z" Reachable.initial))).2.2.1 "A"

/-! ## Short rows -/

/-- C7, the code at a short row: on a row of one column the index expression
`record[1]` is out of range, and on a row of two columns with a parsable price
`record[2]` is; in both cases `uploadCSV` panics instead of returning nil or an
error.  A two-column row with an unparsable price is rejected with the parse
error before `record[2]` is reached. -/
theorem short_row_panics :
    (uploadCSV demoEnv (.ok [.ok ["A"]]) Store.initial).outcome = Outcome.panic ∧
    (uploadCSV demoEnv (.ok [.ok ["A", "1.00"]]) Store.initial).outcome = Outcome.panic ∧
    (uploadCSV demoEnv (.ok [.ok ["A", "x"]]) Store.initial).outcome
      = Outcome.err "bad price" := by
  decide

end PromotionStore
